import Mathlib

/-!
Shallow embedding of the row/selection/display state machine of
`egui-selectable-table` (files `src/lib.rs`, `src/row_modification.rs`,
`src/fuzzy_matcher.rs`).

Modelling conventions:
* Rust `HashMap<i64, SelectableRow>` (the row store) is modelled as a
  `List (SelectableRow Row F)` holding the map's values in its (arbitrary but
  fixed) iteration order; the map keys are the `id` fields of the elements.
* Rust `HashMap<i64, usize>` (`indexed_ids`) is modelled as an association
  list `List (Int × Nat)`; lookup is `lookupId`, insertion is `idxInsert`
  (replace the entry when the key is present, append otherwise).
* Rust `HashSet` fields (`active_rows`, `active_columns`,
  `selected_columns`) are modelled as lists in iteration order.
* `rayon`'s `par_sort_by` is a stable comparison sort; it is modelled by
  `List.mergeSort` with the boolean relation `le a b := cmp a b ≠ Greater`,
  which agrees with it on every lawful comparator.
* The trait methods `ColumnOrdering::order_by` and
  `ColumnOperations::column_text` are passed as explicit function
  parameters `cmp : F → Row → Row → Ordering` and
  `column_text : F → Row → String`.
* The opaque fuzzy scorer (`pattern.score(...).is_some()` together with the
  `nucleo` matcher state) is passed as an opaque predicate
  `score : String → Bool` on the concatenated column text.
* Render-only fields of the Rust struct (`auto_scroll`, `row_height`,
  `config`) are outside the modelled state; they never influence the
  row/selection/display state machine.
-/

namespace EguiTable

/-- `SortOrder` from `src/lib.rs`. -/
inductive SortOrder where
  | Ascending
  | Descending
deriving DecidableEq

/-- `SelectableRow` from `src/lib.rs`; `selected_columns: HashSet<F>` is
modelled as a list in iteration order. -/
structure SelectableRow (Row F : Type) where
  row_data : Row
  id : Int
  selected_columns : List F
deriving DecidableEq

/-- Modelled from the spec: the source file `auto_reload.rs` is not part of
the given sources (only `lib.rs` declares the module and calls
`increment_count`).  Per spec §4.1/§6 the Mutation Batcher holds a
configurable threshold `T` (default: unset, i.e. no auto trigger) and an
internal operation counter. -/
structure AutoReload where
  threshold : Option Nat
  count : Nat
deriving DecidableEq

/-- Modelled from the spec: `AutoReload::increment_count` (file
`auto_reload.rs` absent from the sources).  Per spec §4.1: "Each call
increments an internal counter; when the counter reaches a configurable
threshold T (default: unset → no auto trigger), the Batcher triggers a full
reproject-and-resort and resets the counter."  Returns the trigger flag and
the updated batcher state. -/
def incrementCount (ar : AutoReload) : Bool × AutoReload :=
  let c := ar.count + 1
  match ar.threshold with
  | some t => if c = t then (true, ⟨some t, 0⟩) else (false, ⟨some t, c⟩)
  | none => (false, ⟨none, c⟩)

/-- The state of `SelectableTable` from `src/lib.rs` (the row/selection/
display state machine; render-only fields omitted, see the module
docstring). -/
structure SelectableTable (Row F : Type) where
  all_columns : List F
  column_number : List (F × Nat)
  rows : List (SelectableRow Row F)
  formatted_rows : List (SelectableRow Row F)
  sorted_by : F
  sort_order : SortOrder
  drag_started_on : Option (Int × F)
  active_columns : List F
  active_rows : List Int
  last_active_row : Option Int
  last_active_column : Option F
  beyond_drag_point : Bool
  indexed_ids : List (Int × Nat)
  last_id_used : Int
  auto_reload : AutoReload
  select_full_row : Bool
  horizontal_scroll : Bool
  add_serial_column : Bool
deriving DecidableEq

variable {Row F : Type}

/-- `HashMap<i64, usize>::get` on the association-list model. -/
def lookupId (k : Int) : List (Int × Nat) → Option Nat
  | [] => none
  | p :: rest => if p.1 = k then some p.2 else lookupId k rest

/-- `HashMap<i64, usize>::insert` on the association-list model: replace the
entry when the key is present, append otherwise. -/
def idxInsert (k : Int) (v : Nat) (l : List (Int × Nat)) : List (Int × Nat) :=
  if l.any (fun p => p.1 = k) then l.map (fun p => if p.1 = k then (k, v) else p)
  else l ++ [(k, v)]

/-- `HashMap<i64, SelectableRow>::insert` keyed by the row's `id`. -/
def storeInsert (r : SelectableRow Row F) (l : List (SelectableRow Row F)) :
    List (SelectableRow Row F) :=
  if l.any (fun x => x.id = r.id) then l.map (fun x => if x.id = r.id then r else x)
  else l ++ [r]

/-- `row_data.par_iter().enumerate().map(|(index, row)| (row.id, index))`,
with the running index made explicit. -/
def buildIndexFrom (n : Nat) : List (SelectableRow Row F) → List (Int × Nat)
  | [] => []
  | r :: rest => (r.id, n) :: buildIndexFrom (n + 1) rest

/-- Rust `Ordering::reverse` is `Ordering.swap`; the effective comparator of
`sort_rows`/`search_and_show`:
`match sort_order { Ascending => ordering, Descending => ordering.reverse() }`. -/
def effCmp (cmp : F → Row → Row → Ordering) (sorted_by : F) (so : SortOrder)
    (a b : SelectableRow Row F) : Ordering :=
  let ordering := cmp sorted_by a.row_data b.row_data
  match so with
  | SortOrder.Ascending => ordering
  | SortOrder.Descending => ordering.swap

/-- The boolean "less or equal" relation that a stable comparison sort by a
comparator realises: an element may precede another iff the comparator does
not report `Greater`. -/
def rustSortLe (o : Ordering) : Bool :=
  match o with
  | Ordering.gt => false
  | _ => true

/-- The sort relation used by `sort_rows` and `search_and_show`. -/
def sortLe (cmp : F → Row → Row → Ordering) (sorted_by : F) (so : SortOrder)
    (a b : SelectableRow Row F) : Bool :=
  rustSortLe (effCmp cmp sorted_by so a b)

/-- `sort_rows` from `src/row_modification.rs`: clone every store row, sort
by the effective comparator, rebuild `indexed_ids` and `formatted_rows`. -/
def sort_rows (cmp : F → Row → Row → Ordering) (st : SelectableTable Row F) :
    SelectableTable Row F :=
  let row_data := st.rows.mergeSort (sortLe cmp st.sorted_by st.sort_order)
  let indexed_data := buildIndexFrom 0 row_data
  { st with indexed_ids := indexed_data, formatted_rows := row_data }

/-- `recreate_rows` from `src/lib.rs`. -/
def recreate_rows (cmp : F → Row → Row → Ordering) (st : SelectableTable Row F) :
    SelectableTable Row F :=
  sort_rows cmp
    { st with formatted_rows := [], active_rows := [], active_columns := [] }

/-- The `for row in &self.active_rows` loop of `recreate_rows_no_unselect`:
for each active id found in the (freshly rebuilt) index, overwrite the
selected columns of the row at that display position with `active_columns`.
The `none` fallback of the inner list access is unreachable at the call
site, where every index stored in `indexed_ids` is a valid position of
`formatted_rows`. -/
def applyActiveColumns (cols : List F) (idx : List (Int × Nat)) :
    List Int → List (SelectableRow Row F) → List (SelectableRow Row F)
  | [], fr => fr
  | id :: rest, fr =>
    match lookupId id idx with
    | none => applyActiveColumns cols idx rest fr
    | some i =>
      match fr.get? i with
      | none => applyActiveColumns cols idx rest fr
      | some r => applyActiveColumns cols idx rest
          (fr.set i { r with selected_columns := cols })

/-- `recreate_rows_no_unselect` from `src/lib.rs`. -/
def recreate_rows_no_unselect (cmp : F → Row → Row → Ordering)
    (st : SelectableTable Row F) : SelectableTable Row F :=
  let st1 := sort_rows cmp { st with formatted_rows := [] }
  { st1 with
    formatted_rows :=
      applyActiveColumns st1.active_columns st1.indexed_ids st1.active_rows
        st1.formatted_rows }

/-- `clear_all_rows` from `src/lib.rs`. -/
def clear_all_rows (st : SelectableTable Row F) : SelectableTable Row F :=
  { st with rows := [], formatted_rows := [], active_rows := [],
            active_columns := [], last_id_used := 0 }

/-- `modify_shown_row` from `src/row_modification.rs`: the closure receives
mutable access to `formatted_rows` and read access to `indexed_ids`. -/
def modify_shown_row
    (f : List (SelectableRow Row F) → List (Int × Nat) → List (SelectableRow Row F))
    (st : SelectableTable Row F) : SelectableTable Row F :=
  { st with formatted_rows := f st.formatted_rows st.indexed_ids }

/-- `add_modify_row` from `src/row_modification.rs`: the closure mutates the
store and optionally returns a new row; a returned row is inserted with the
fresh id `last_id_used`; then the batcher counter is incremented and, on
trigger, `recreate_rows` runs. -/
def add_modify_row (cmp : F → Row → Row → Ordering)
    (f : List (SelectableRow Row F) → List (SelectableRow Row F) × Option Row)
    (st : SelectableTable Row F) : SelectableTable Row F × Option Int :=
  let fr := f st.rows
  let st1 := { st with rows := fr.1 }
  let step : SelectableTable Row F × Option Int :=
    match fr.2 with
    | some row =>
      let new_row : SelectableRow Row F := ⟨row, st1.last_id_used, []⟩
      ({ st1 with rows := storeInsert new_row st1.rows,
                  last_id_used := st1.last_id_used + 1 },
       some st1.last_id_used)
    | none => (st1, none)
  let ic := incrementCount step.1.auto_reload
  let st2 := { step.1 with auto_reload := ic.2 }
  if ic.1 then (recreate_rows cmp st2, step.2) else (st2, step.2)

/-- `add_unsorted_row` from `src/row_modification.rs`. -/
def add_unsorted_row (row : Row) (st : SelectableTable Row F) :
    SelectableTable Row F × SelectableRow Row F :=
  let new_row : SelectableRow Row F := ⟨row, st.last_id_used, []⟩
  let formatted := st.formatted_rows ++ [new_row]
  ({ st with
      formatted_rows := formatted,
      indexed_ids := idxInsert new_row.id (formatted.length - 1) st.indexed_ids,
      rows := storeInsert new_row st.rows,
      last_id_used := st.last_id_used + 1 },
   new_row)

/-- The per-row match predicate of `search_and_show`: concatenate
`column_text` of each listed column (each followed by a space) and ask the
scorer. -/
def matchPred (column_text : F → Row → String) (score : String → Bool)
    (column_list : List F) (val : SelectableRow Row F) : Bool :=
  score (column_list.foldl (fun s c => s ++ column_text c val.row_data ++ " ") "")

/-- The scan loop of `search_and_show`: push each matching row, breaking as
soon as the accumulated length reaches the limit. -/
def searchLoop (p : SelectableRow Row F → Bool) (limit : Option Nat) :
    List (SelectableRow Row F) → List (SelectableRow Row F) →
    List (SelectableRow Row F)
  | [], acc => acc
  | v :: rest, acc =>
    if p v then
      let acc2 := acc ++ [v]
      match limit with
      | some m => if m ≤ acc2.length then acc2 else searchLoop p limit rest acc2
      | none => searchLoop p limit rest acc2
    else searchLoop p limit rest acc

/-- `search_and_show` from `src/fuzzy_matcher.rs`. -/
def search_and_show (cmp : F → Row → Row → Ordering)
    (column_text : F → Row → String) (score : String → Bool)
    (column_list : List F) (query : String) (limit : Option Nat)
    (st : SelectableTable Row F) : SelectableTable Row F :=
  if query.isEmpty then st
  else if column_list.isEmpty then st
  else if limit = some 0 then st
  else
    let row_data :=
      searchLoop (matchPred column_text score column_list) limit st.rows []
    let row_data2 := row_data.mergeSort (sortLe cmp st.sorted_by st.sort_order)
    { st with
      formatted_rows := row_data2,
      active_rows := [],
      active_columns := [],
      indexed_ids := buildIndexFrom 0 row_data2 }

/-- `new` from `src/lib.rs` (field defaults; the batcher default is "unset",
i.e. no auto trigger). `f0` stands for `F::default()`. -/
def newTable (f0 : F) (columns : List F) : SelectableTable Row F :=
  { all_columns := columns,
    column_number := (buildColNum 0 columns : List (F × Nat)),
    rows := [],
    formatted_rows := [],
    sorted_by := f0,
    sort_order := SortOrder.Ascending,
    drag_started_on := none,
    active_columns := [],
    active_rows := [],
    last_active_row := none,
    last_active_column := none,
    beyond_drag_point := false,
    indexed_ids := [],
    last_id_used := 0,
    auto_reload := ⟨none, 0⟩,
    select_full_row := false,
    horizontal_scroll := false,
    add_serial_column := false }
where
  buildColNum (n : Nat) : List F → List (F × Nat)
    | [] => []
    | c :: rest => (c, n) :: buildColNum (n + 1) rest

/-- Modelled from the spec: the `auto_reload(count)` builder (file
`auto_reload.rs` absent from the sources); spec §6: "auto-reload threshold
(default: disabled)". -/
def setAutoReload (t : Nat) (st : SelectableTable Row F) : SelectableTable Row F :=
  { st with auto_reload := ⟨some t, 0⟩ }

/-- Display/index mutual consistency (spec invariant I1 / property P1): the
index has exactly as many entries as the display sequence, its keys are
pairwise distinct (so the association-list length is the `HashMap` size),
and every id at position `p` of the display sequence is mapped to `p`. -/
def displayConsistent (st : SelectableTable Row F) : Prop :=
  (st.indexed_ids.map Prod.fst).Nodup ∧
  st.indexed_ids.length = st.formatted_rows.length ∧
  ∀ pr ∈ buildIndexFrom 0 st.formatted_rows,
    lookupId pr.1 st.indexed_ids = some pr.2

/-- Adjacent-pair sortedness of the display sequence as stated by spec
property P2: under `Ascending` the caller's comparator reports at most
`Equal` on each adjacent pair, under `Descending` at least `Equal`. -/
def adjacentOrder (cmp : F → Row → Row → Ordering) (st : SelectableTable Row F) :
    Prop :=
  List.Chain'
    (fun a b =>
      match st.sort_order with
      | SortOrder.Ascending => cmp st.sorted_by a.row_data b.row_data ≠ Ordering.gt
      | SortOrder.Descending => cmp st.sorted_by a.row_data b.row_data ≠ Ordering.lt)
    st.formatted_rows

/-! ### Basic lemmas about the index model -/

theorem buildIndexFrom_length (n : Nat) (l : List (SelectableRow Row F)) :
    (buildIndexFrom n l).length = l.length := by
  induction l generalizing n with
  | nil => rfl
  | cons r rest ih => simp [buildIndexFrom, ih]

theorem buildIndexFrom_map_fst (n : Nat) (l : List (SelectableRow Row F)) :
    (buildIndexFrom n l).map Prod.fst = l.map (fun r => r.id) := by
  induction l generalizing n with
  | nil => rfl
  | cons r rest ih => simp [buildIndexFrom, ih]

theorem buildIndexFrom_congr {l1 l2 : List (SelectableRow Row F)} (n : Nat)
    (h : l1.map (fun r => r.id) = l2.map (fun r => r.id)) :
    buildIndexFrom n l1 = buildIndexFrom n l2 := by
  induction l1 generalizing l2 n with
  | nil => cases l2 <;> simp_all [buildIndexFrom]
  | cons r rest ih =>
    cases l2 with
    | nil => simp_all
    | cons s rest2 =>
      simp only [List.map_cons, List.cons.injEq] at h
      simp [buildIndexFrom, h.1, ih (n + 1) h.2]

theorem buildIndexFrom_append (n : Nat) (l1 l2 : List (SelectableRow Row F)) :
    buildIndexFrom n (l1 ++ l2) =
      buildIndexFrom n l1 ++ buildIndexFrom (n + l1.length) l2 := by
  induction l1 generalizing n with
  | nil => simp [buildIndexFrom]
  | cons r rest ih =>
    simp only [List.cons_append, buildIndexFrom, ih, List.length_cons]
    have : n + (rest.length + 1) = n + 1 + rest.length := by omega
    simp [this, ih (n + 1)]

theorem lookupId_eq_none {k : Int} {l : List (Int × Nat)} :
    lookupId k l = none ↔ k ∉ l.map Prod.fst := by
  induction l with
  | nil => simp [lookupId]
  | cons p rest ih =>
    by_cases h : p.1 = k
    · simp [lookupId, h]
    · simp [lookupId, h, ih, Ne.symm h]

theorem lookupId_append_left {k : Int} {l1 l2 : List (Int × Nat)} {v : Nat}
    (h : lookupId k l1 = some v) : lookupId k (l1 ++ l2) = some v := by
  induction l1 with
  | nil => simp [lookupId] at h
  | cons p rest ih =>
    by_cases hp : p.1 = k
    · simp_all [lookupId, hp]
    · simp_all [lookupId, hp]

theorem lookupId_append_right {k : Int} {l1 l2 : List (Int × Nat)}
    (h : k ∉ l1.map Prod.fst) : lookupId k (l1 ++ l2) = lookupId k l2 := by
  induction l1 with
  | nil => rfl
  | cons p rest ih =>
    simp only [List.map_cons, List.mem_cons, not_or] at h
    simp [lookupId, Ne.symm h.1, ih h.2]

theorem lookupId_buildIndexFrom {l : List (SelectableRow Row F)}
    (hnd : (l.map (fun r => r.id)).Nodup) (n : Nat) :
    ∀ pr ∈ buildIndexFrom n l, lookupId pr.1 (buildIndexFrom n l) = some pr.2 := by
  induction l generalizing n with
  | nil => intro pr hpr; simp [buildIndexFrom] at hpr
  | cons r rest ih =>
    simp only [List.map_cons, List.nodup_cons] at hnd
    intro pr hpr
    simp only [buildIndexFrom, List.mem_cons] at hpr
    rcases hpr with h | h
    · subst h; simp [lookupId]
    · have hfst : pr.1 ∈ rest.map (fun r => r.id) := by
        have := List.mem_map_of_mem Prod.fst h
        rwa [buildIndexFrom_map_fst] at this
      have hne : r.id ≠ pr.1 := fun he => hnd.1 (he ▸ hfst)
      simp only [lookupId, if_neg hne]
      exact ih hnd.2 (n + 1) pr h

theorem lookupId_buildIndexFrom_some {l : List (SelectableRow Row F)} {k : Int}
    {n m : Nat} (h : lookupId k (buildIndexFrom n l) = some m) :
    ∃ r, l.get? (m - n) = some r ∧ r.id = k ∧ n ≤ m := by
  induction l generalizing n with
  | nil => simp [buildIndexFrom, lookupId] at h
  | cons r rest ih =>
    simp only [buildIndexFrom, lookupId] at h
    by_cases hr : r.id = k
    · rw [if_pos hr] at h
      refine ⟨r, ?_, hr, ?_⟩ <;> simp_all [Nat.sub_self]
    · rw [if_neg hr] at h
      obtain ⟨s, hs, hid, hnm⟩ := ih h
      refine ⟨s, ?_, hid, by omega⟩
      have : m - n = (m - (n + 1)) + 1 := by omega
      rw [this]
      simpa using hs

/-! ### C9: `clear_all_rows` frame effect -/

/-- C9: `clear_all_rows` empties the row store, the display sequence and the
active sets, and resets the id counter to 0 (so the next row added gets id
0), but leaves `indexed_ids` and all drag state untouched. -/
theorem c9_clear_all_rows (st : SelectableTable Row F) (r : Row) :
    (clear_all_rows st).rows = [] ∧
    (clear_all_rows st).formatted_rows = [] ∧
    (clear_all_rows st).active_rows = [] ∧
    (clear_all_rows st).active_columns = [] ∧
    (clear_all_rows st).last_id_used = 0 ∧
    (add_unsorted_row r (clear_all_rows st)).2.id = 0 ∧
    (clear_all_rows st).indexed_ids = st.indexed_ids ∧
    (clear_all_rows st).drag_started_on = st.drag_started_on ∧
    (clear_all_rows st).last_active_row = st.last_active_row ∧
    (clear_all_rows st).last_active_column = st.last_active_column ∧
    (clear_all_rows st).beyond_drag_point = st.beyond_drag_point := by
  refine ⟨rfl, rfl, rfl, rfl, rfl, rfl, rfl, rfl, rfl, rfl, rfl⟩

/-! ### C8: `modify_shown_row` frame effect -/

/-- C8: `modify_shown_row` can change only the displayed rows: the row
store, the batcher state, the sort state, the selection sets, the index and
the id counter are untouched, and the next `recreate_rows` produces exactly
the state it would have produced without the shown-only edit (the edit is
not persisted). -/
theorem c8_modify_shown_row (cmp : F → Row → Row → Ordering)
    (f : List (SelectableRow Row F) → List (Int × Nat) → List (SelectableRow Row F))
    (st : SelectableTable Row F) :
    (modify_shown_row f st).rows = st.rows ∧
    (modify_shown_row f st).auto_reload = st.auto_reload ∧
    (modify_shown_row f st).sorted_by = st.sorted_by ∧
    (modify_shown_row f st).sort_order = st.sort_order ∧
    (modify_shown_row f st).active_rows = st.active_rows ∧
    (modify_shown_row f st).active_columns = st.active_columns ∧
    (modify_shown_row f st).indexed_ids = st.indexed_ids ∧
    (modify_shown_row f st).last_id_used = st.last_id_used ∧
    recreate_rows cmp (modify_shown_row f st) = recreate_rows cmp st ∧
    recreate_rows_no_unselect cmp (modify_shown_row f st) =
      recreate_rows_no_unselect cmp st := by
  refine ⟨rfl, rfl, rfl, rfl, rfl, rfl, rfl, rfl, rfl, rfl⟩

/-! ### C5: degenerate searches are silent no-ops -/

/-- C5: `search_and_show` leaves the whole table state unchanged when the
column list is empty, the query is empty, or the limit is zero. -/
theorem c5_search_degenerate_noop (cmp : F → Row → Row → Ordering)
    (column_text : F → Row → String) (score : String → Bool)
    (column_list : List F) (query : String) (limit : Option Nat)
    (st : SelectableTable Row F)
    (h : column_list = [] ∨ query = "" ∨ limit = some 0) :
    search_and_show cmp column_text score column_list query limit st = st := by
  by_cases hq : query.isEmpty
  · simp [search_and_show, hq]
  · by_cases hc : column_list.isEmpty
    · simp [search_and_show, hq, hc]
    · have hl : limit = some 0 := by
        rcases h with h | h | h
        · exact absurd (List.isEmpty_iff.mpr h) hc
        · exact absurd ((String.isEmpty_iff query).mpr h) hq
        · exact h
      simp [search_and_show, hq, hc, hl]

/-! ### C1: display/index consistency after every rebuild -/

theorem map_id_set {fr : List (SelectableRow Row F)} {i : Nat}
    {r r0 : SelectableRow Row F} (h : fr.get? i = some r0) (hid : r.id = r0.id) :
    (fr.set i r).map (fun x => x.id) = fr.map (fun x => x.id) := by
  induction fr generalizing i with
  | nil => simp [List.get?] at h
  | cons a rest ih =>
    cases i with
    | zero =>
      simp only [List.get?] at h
      injection h with h
      simp [List.set, hid, h]
    | succ j =>
      simp only [List.get?] at h
      simp [List.set, ih h]

theorem applyActiveColumns_map_id (cols : List F) (idx : List (Int × Nat))
    (ids : List Int) (fr : List (SelectableRow Row F)) :
    (applyActiveColumns cols idx ids fr).map (fun x => x.id) =
      fr.map (fun x => x.id) := by
  induction ids generalizing fr with
  | nil => rfl
  | cons a rest ih =>
    cases hl : lookupId a idx with
    | none => simp only [applyActiveColumns, hl]; exact ih fr
    | some i =>
      cases hg : fr.get? i with
      | none => simp only [applyActiveColumns, hl, hg]; exact ih fr
      | some r =>
        simp only [applyActiveColumns, hl, hg]
        rw [ih, @map_id_set Row F fr i { r with selected_columns := cols } r hg rfl]

theorem applyActiveColumns_length (cols : List F) (idx : List (Int × Nat))
    (ids : List Int) (fr : List (SelectableRow Row F)) :
    (applyActiveColumns cols idx ids fr).length = fr.length := by
  have h := congrArg List.length (applyActiveColumns_map_id cols idx ids fr)
  simpa using h

theorem searchLoop_sublist (p : SelectableRow Row F → Bool) (limit : Option Nat) :
    ∀ (l acc : List (SelectableRow Row F)),
      (searchLoop p limit l acc).Sublist (acc ++ l) := by
  intro l
  induction l with
  | nil => intro acc; simp [searchLoop]
  | cons v rest ih =>
    intro acc
    simp only [searchLoop]
    by_cases hp : p v
    · simp only [hp, if_true]
      have hsub : (acc ++ [v]) ++ rest = acc ++ v :: rest := by simp
      cases limit with
      | none =>
        have := ih (acc ++ [v])
        rw [hsub] at this
        exact this
      | some m =>
        by_cases hm : m ≤ (acc ++ [v]).length
        · simp only [hm, if_true]
          have h1 : (acc ++ [v]).Sublist ((acc ++ [v]) ++ rest) :=
            (acc ++ [v]).sublist_append_left rest
          rw [hsub] at h1
          exact h1
        · simp only [hm, if_false]
          have := ih (acc ++ [v])
          rw [hsub] at this
          exact this
    · simp only [hp, if_false]
      exact (ih acc).trans (List.Sublist.append_left (rest.sublist_cons_self v) acc)

/-- A state whose index is exactly the freshly built index of its display
sequence and whose displayed ids are pairwise distinct is display/index
consistent. -/
theorem displayConsistent_mk (st : SelectableTable Row F)
    (hi : st.indexed_ids = buildIndexFrom 0 st.formatted_rows)
    (hnd : (st.formatted_rows.map (fun r => r.id)).Nodup) :
    displayConsistent st := by
  refine ⟨?_, ?_, ?_⟩
  · rw [hi, buildIndexFrom_map_fst]; exact hnd
  · rw [hi, buildIndexFrom_length]
  · intro pr hpr
    rw [hi]
    exact lookupId_buildIndexFrom hnd 0 pr hpr

theorem sort_rows_map_id_perm (cmp : F → Row → Row → Ordering)
    (st : SelectableTable Row F) :
    ((sort_rows cmp st).formatted_rows.map (fun r => r.id)).Perm
      (st.rows.map (fun r => r.id)) :=
  (List.mergeSort_perm st.rows (sortLe cmp st.sorted_by st.sort_order)).map _

/-- After `sort_rows` followed by the selection re-attachment loop (the body
of `recreate_rows_no_unselect`), display and index are consistent. -/
theorem displayConsistent_sort_apply (cmp : F → Row → Row → Ordering)
    (st2 : SelectableTable Row F) (cols : List F) (ids : List Int)
    (hnd2 : (st2.rows.map (fun r => r.id)).Nodup) :
    displayConsistent
      { sort_rows cmp st2 with
        formatted_rows :=
          applyActiveColumns cols (sort_rows cmp st2).indexed_ids ids
            (sort_rows cmp st2).formatted_rows } := by
  have hmap := applyActiveColumns_map_id cols (sort_rows cmp st2).indexed_ids
    ids (sort_rows cmp st2).formatted_rows
  refine displayConsistent_mk _ ?_ ?_
  · show (sort_rows cmp st2).indexed_ids = buildIndexFrom 0
      (applyActiveColumns cols (sort_rows cmp st2).indexed_ids ids
        (sort_rows cmp st2).formatted_rows)
    rw [buildIndexFrom_congr 0 hmap]
    rfl
  · show ((applyActiveColumns cols (sort_rows cmp st2).indexed_ids ids
      (sort_rows cmp st2).formatted_rows).map (fun r => r.id)).Nodup
    rw [hmap]
    exact ((sort_rows_map_id_perm cmp st2).nodup_iff).mpr hnd2

/-- C1: after every rebuild of the display — `recreate_rows`,
`recreate_rows_no_unselect`, or a non-degenerate `search_and_show` — the
display index has exactly as many entries as the display sequence and maps
the id found at each display position `p` to `p`. -/
theorem c1_display_index_consistent (cmp : F → Row → Row → Ordering)
    (column_text : F → Row → String) (score : String → Bool)
    (column_list : List F) (query : String) (limit : Option Nat)
    (st : SelectableTable Row F)
    (hnd : (st.rows.map (fun r => r.id)).Nodup)
    (hq : query ≠ "") (hc : column_list ≠ []) (hl : limit ≠ some 0) :
    displayConsistent (recreate_rows cmp st) ∧
    displayConsistent (recreate_rows_no_unselect cmp st) ∧
    displayConsistent
      (search_and_show cmp column_text score column_list query limit st) := by
  have hsortnd : ∀ (st2 : SelectableTable Row F), st2.rows = st.rows →
      ((sort_rows cmp st2).formatted_rows.map (fun r => r.id)).Nodup := by
    intro st2 h2
    exact ((sort_rows_map_id_perm cmp st2).nodup_iff).mpr (h2 ▸ hnd)
  refine ⟨?_, ?_, ?_⟩
  · exact displayConsistent_mk _ rfl (hsortnd _ rfl)
  · exact displayConsistent_sort_apply cmp { st with formatted_rows := [] }
      st.active_columns st.active_rows hnd
  · rw [search_and_show]
    rw [if_neg (by simpa [String.isEmpty_iff] using hq),
        if_neg (by simpa [List.isEmpty_iff] using hc), if_neg hl]
    refine displayConsistent_mk _ rfl ?_
    have hsub : (searchLoop (matchPred column_text score column_list) limit
        st.rows []).Sublist st.rows := by
      simpa using searchLoop_sublist (matchPred column_text score column_list)
        limit st.rows []
    have hnd2 : ((searchLoop (matchPred column_text score column_list) limit
        st.rows []).map (fun (r : SelectableRow Row F) => r.id)).Nodup :=
      List.Nodup.sublist
        (List.Sublist.map (fun (r : SelectableRow Row F) => r.id) hsub) hnd
    exact ((List.mergeSort_perm (searchLoop (matchPred column_text score
      column_list) limit st.rows []) (sortLe cmp st.sorted_by st.sort_order)).map
      (fun (r : SelectableRow Row F) => r.id)).nodup_iff.mpr hnd2

/-! ### C2: sortedness of the display sequence after a reproject -/

theorem rustSortLe_true (o : Ordering) :
    rustSortLe o = true ↔ o ≠ Ordering.gt := by
  cases o <;> simp [rustSortLe]

theorem swap_ne_gt (o : Ordering) : o.swap ≠ Ordering.gt ↔ o ≠ Ordering.lt := by
  cases o <;> simp [Ordering.swap]

theorem swap_ne_lt (o : Ordering) : o.swap ≠ Ordering.lt ↔ o ≠ Ordering.gt := by
  cases o <;> simp [Ordering.swap]

theorem sortLe_asc (cmp : F → Row → Row → Ordering) (k : F)
    (a b : SelectableRow Row F) :
    sortLe cmp k SortOrder.Ascending a b = true ↔
      cmp k a.row_data b.row_data ≠ Ordering.gt :=
  rustSortLe_true _

theorem sortLe_desc (cmp : F → Row → Row → Ordering) (k : F)
    (a b : SelectableRow Row F) :
    sortLe cmp k SortOrder.Descending a b = true ↔
      cmp k a.row_data b.row_data ≠ Ordering.lt := by
  have h := rustSortLe_true ((cmp k a.row_data b.row_data).swap)
  rw [show sortLe cmp k SortOrder.Descending a b =
      rustSortLe ((cmp k a.row_data b.row_data).swap) from rfl, h]
  exact swap_ne_gt _

/-- C2 (amended): for every lawful caller comparator — one reporting
symmetric results (`cmp a b` is the swap of `cmp b a`) and transitive in
the "not Greater" sense, as `ColumnOrdering` implementations are meant to
be — every adjacent pair of the display sequence produced by a reproject
satisfies `cmp row[i] row[i+1] ≤ Equal` under `Ascending` and `≥ Equal`
under `Descending`; the comparator itself is only ever consulted with
ascending semantics, `Descending` reverses its verdict internally. -/
theorem c2_sort_correct (cmp : F → Row → Row → Ordering)
    (st : SelectableTable Row F)
    (hsymm : ∀ (c : F) (a b : Row), cmp c a b = (cmp c b a).swap)
    (htrans : ∀ (c : F) (a b d : Row), cmp c a b ≠ Ordering.gt →
      cmp c b d ≠ Ordering.gt → cmp c a d ≠ Ordering.gt) :
    adjacentOrder cmp (sort_rows cmp st) := by
  unfold adjacentOrder
  have hso : (sort_rows cmp st).sort_order = st.sort_order := rfl
  have hsb : (sort_rows cmp st).sorted_by = st.sorted_by := rfl
  have hfr : (sort_rows cmp st).formatted_rows =
      st.rows.mergeSort (sortLe cmp st.sorted_by st.sort_order) := rfl
  rw [hso, hsb, hfr]
  cases hord : st.sort_order with
  | Ascending =>
    have htr : ∀ (a b c : SelectableRow Row F),
        sortLe cmp st.sorted_by SortOrder.Ascending a b = true →
        sortLe cmp st.sorted_by SortOrder.Ascending b c = true →
        sortLe cmp st.sorted_by SortOrder.Ascending a c = true := by
      intro a b c hab hbc
      rw [sortLe_asc] at hab hbc ⊢
      exact htrans _ _ _ _ hab hbc
    have htot : ∀ (a b : SelectableRow Row F),
        (sortLe cmp st.sorted_by SortOrder.Ascending a b ||
          sortLe cmp st.sorted_by SortOrder.Ascending b a) = true := by
      intro a b
      rw [Bool.or_eq_true, sortLe_asc, sortLe_asc]
      by_cases h : cmp st.sorted_by a.row_data b.row_data = Ordering.gt
      · right
        rw [hsymm st.sorted_by b.row_data a.row_data, h]
        simp [Ordering.swap]
      · exact Or.inl h
    have hp := List.sorted_mergeSort htr htot st.rows
    refine List.Chain'.imp ?_ (List.Pairwise.chain' hp)
    intro a b hab
    exact (sortLe_asc cmp st.sorted_by a b).mp hab
  | Descending =>
    have htr : ∀ (a b c : SelectableRow Row F),
        sortLe cmp st.sorted_by SortOrder.Descending a b = true →
        sortLe cmp st.sorted_by SortOrder.Descending b c = true →
        sortLe cmp st.sorted_by SortOrder.Descending a c = true := by
      intro a b c hab hbc
      rw [sortLe_desc] at hab hbc ⊢
      rw [hsymm st.sorted_by a.row_data b.row_data, swap_ne_lt] at hab
      rw [hsymm st.sorted_by b.row_data c.row_data, swap_ne_lt] at hbc
      rw [hsymm st.sorted_by a.row_data c.row_data, swap_ne_lt]
      exact htrans _ _ _ _ hbc hab
    have htot : ∀ (a b : SelectableRow Row F),
        (sortLe cmp st.sorted_by SortOrder.Descending a b ||
          sortLe cmp st.sorted_by SortOrder.Descending b a) = true := by
      intro a b
      rw [Bool.or_eq_true, sortLe_desc, sortLe_desc]
      by_cases h : cmp st.sorted_by a.row_data b.row_data = Ordering.lt
      · right
        rw [hsymm st.sorted_by b.row_data a.row_data, h]
        simp [Ordering.swap]
      · exact Or.inl h
    have hp := List.sorted_mergeSort htr htot st.rows
    refine List.Chain'.imp ?_ (List.Pairwise.chain' hp)
    intro a b hab
    exact (sortLe_desc cmp st.sorted_by a b).mp hab

/-- A "comparator" that always answers `Greater`; any caller can supply it,
since `ColumnOrdering` imposes no lawfulness. -/
def badCmp : Bool → Bool → Bool → Ordering := fun _ _ _ => Ordering.gt

def rowsC2 : List (SelectableRow Bool Bool) :=
  [⟨true, 0, []⟩, ⟨false, 1, []⟩]

def stC2 : SelectableTable Bool Bool :=
  { (newTable false [false, true] : SelectableTable Bool Bool) with
    rows := rowsC2, last_id_used := 2 }

unseal List.merge List.mergeSort in
theorem c2_counterexample : ¬ adjacentOrder badCmp (sort_rows badCmp stC2) := by
  intro h
  have h1 : (sort_rows badCmp stC2).formatted_rows =
      [⟨false, 1, []⟩, ⟨true, 0, []⟩] := rfl
  unfold adjacentOrder at h
  rw [h1] at h
  exact List.chain'_pair.mp h rfl

/-- A lawful comparator on `Bool` rows. -/
def goodCmp : Bool → Bool → Bool → Ordering := fun _ a b => compare a b

theorem c2_witness :
    (∀ (c a b : Bool), goodCmp c a b = (goodCmp c b a).swap) ∧
    adjacentOrder goodCmp (sort_rows goodCmp stC2) :=
  ⟨by decide, c2_sort_correct goodCmp stC2 (by decide) (by decide)⟩

/-! ### C3: what the selection-preserving rebuild actually re-attaches -/

theorem applyActiveColumns_eq_map (cols : List F) (ids : List Int)
    (fr : List (SelectableRow Row F))
    (hnd : (fr.map (fun r => r.id)).Nodup) :
    applyActiveColumns cols (buildIndexFrom 0 fr) ids fr =
      fr.map (fun r =>
        if r.id ∈ ids then { r with selected_columns := cols } else r) := by
  induction ids generalizing fr with
  | nil =>
    simp only [applyActiveColumns, List.not_mem_nil, if_false]
    exact (List.map_id fr).symm
  | cons a rest ih =>
    cases hl : lookupId a (buildIndexFrom 0 fr) with
    | none =>
      have hnotin : a ∉ fr.map (fun r => r.id) := by
        have h2 := lookupId_eq_none.mp hl
        rwa [buildIndexFrom_map_fst] at h2
      simp only [applyActiveColumns, hl]
      rw [ih fr hnd]
      apply List.map_congr_left
      intro r hr
      have hna : r.id ≠ a := fun he =>
        hnotin (he ▸ List.mem_map_of_mem (fun r => r.id) hr)
      simp [List.mem_cons, hna]
    | some i =>
      obtain ⟨r0, hg, hid, -⟩ := lookupId_buildIndexFrom_some hl
      rw [Nat.sub_zero] at hg
      have hi : i < fr.length := by
        rcases List.get?_eq_some.mp hg with ⟨h, -⟩
        exact h
      simp only [applyActiveColumns, hl, hg]
      have hmap2 : ((fr.set i { r0 with selected_columns := cols }).map
          (fun r => r.id)) = fr.map (fun r => r.id) :=
        @map_id_set Row F fr i { r0 with selected_columns := cols } r0 hg rfl
      rw [(buildIndexFrom_congr 0 hmap2).symm,
        ih (fr.set i { r0 with selected_columns := cols }) (by rw [hmap2]; exact hnd)]
      apply List.ext_getElem
      · simp
      · intro n h1 h2
        have hn2 : n < fr.length := by simpa using h2
        have hn1 : n < (fr.set i { r0 with selected_columns := cols }).length := by
          simpa using hn2
        rw [List.getElem_map, List.getElem_map, List.getElem_set hn1]
        have hfri : fr[i] = r0 := by
          have hg2 := hg
          rw [List.get?_eq_getElem? fr i, List.getElem?_eq_getElem hi] at hg2
          exact Option.some.inj hg2
        by_cases hni : i = n
        · rw [if_pos hni]
          have hfrn : fr[n] = r0 := by subst hni; exact hfri
          rw [hfrn]
          have hmem : r0.id ∈ a :: rest := by rw [hid]; exact List.mem_cons_self a rest
          rw [if_pos hmem]
          by_cases hm : ({ r0 with selected_columns := cols } :
              SelectableRow Row F).id ∈ rest
          · rw [if_pos hm]
          · rw [if_neg hm]
        · rw [if_neg hni]
          have hne : (fr[n]).id ≠ a := by
            intro he
            have hmn2 : n < (fr.map (fun r => r.id)).length := by simpa using hn2
            have hmi2 : i < (fr.map (fun r => r.id)).length := by simpa using hi
            have hmn : (fr.map (fun r => r.id))[n] =
                (fr.map (fun r => r.id))[i] := by
              rw [List.getElem_map, List.getElem_map, he, hfri, hid]
            exact hni ((hnd.getElem_inj_iff.mp hmn).symm)
          simp [List.mem_cons, hne]

/-- C3 (amended): `recreate_rows_no_unselect` performs the same rebuild as
`recreate_rows` (same store, same rebuilt index, same sorted row order) and
then assigns the *global* `active_columns` set — not each row's own
previous selected-column set — as the selected-column set of every
previously active row at its new display position. -/
theorem c3_rebuild_attaches_active_columns (cmp : F → Row → Row → Ordering)
    (st : SelectableTable Row F)
    (hnd : (st.rows.map (fun r => r.id)).Nodup) :
    (recreate_rows_no_unselect cmp st).rows = (recreate_rows cmp st).rows ∧
    (recreate_rows_no_unselect cmp st).indexed_ids =
      (recreate_rows cmp st).indexed_ids ∧
    (recreate_rows_no_unselect cmp st).formatted_rows =
      (recreate_rows cmp st).formatted_rows.map (fun r =>
        if r.id ∈ st.active_rows then
          { r with selected_columns := st.active_columns } else r) := by
  refine ⟨rfl, rfl, ?_⟩
  have hndM : ((st.rows.mergeSort (sortLe cmp st.sorted_by st.sort_order)).map
      (fun r => r.id)).Nodup :=
    ((List.mergeSort_perm st.rows (sortLe cmp st.sorted_by st.sort_order)).map
      (fun r => r.id)).nodup_iff.mpr hnd
  exact applyActiveColumns_eq_map st.active_columns st.active_rows
    (st.rows.mergeSort (sortLe cmp st.sorted_by st.sort_order)) hndM

/-- A lawful comparator on `Nat` rows. -/
def cmpNat : Nat → Nat → Nat → Ordering := fun _ a b => compare a b

/-- Two rows with disjoint per-row selections: row id 0 has column 0
selected, row id 1 has column 1 selected. -/
def stC3 : SelectableTable Nat Nat :=
  { (newTable 0 [0, 1] : SelectableTable Nat Nat) with
    rows := [⟨10, 0, []⟩, ⟨20, 1, []⟩],
    formatted_rows := [⟨10, 0, [0]⟩, ⟨20, 1, [1]⟩],
    indexed_ids := [(0, 0), (1, 1)],
    active_rows := [0, 1],
    active_columns := [0, 1],
    last_id_used := 2 }

unseal List.merge List.mergeSort in
theorem c3_counterexample :
    ((recreate_rows_no_unselect cmpNat stC3).formatted_rows.map
      (fun r => (r.id, r.selected_columns))) = [(0, [0, 1]), (1, [0, 1])] ∧
    (stC3.formatted_rows.map (fun r => (r.id, r.selected_columns))) =
      [(0, [0]), (1, [1])] ∧
    ([0, 1] : List Nat) ≠ [0] ∧ ([0, 1] : List Nat) ≠ [1] := by
  refine ⟨by decide, by decide, by decide, by decide⟩

theorem c3_witness :
    ((stC3.rows.map (fun r => r.id)).Nodup) ∧
    ((recreate_rows_no_unselect cmpNat stC3).formatted_rows =
      (recreate_rows cmpNat stC3).formatted_rows.map (fun r =>
        if r.id ∈ stC3.active_rows then
          { r with selected_columns := stC3.active_columns } else r)) :=
  ⟨by decide, (c3_rebuild_attaches_active_columns cmpNat stC3 (by decide)).2.2⟩

/-! ### C4: stale active ids are skipped, not dropped -/

/-- A state whose `active_rows` holds id 5 although the store is empty
(e.g. the row was deleted through the `add_modify_row` closure). -/
def stC4 : SelectableTable Nat Nat :=
  { (newTable 0 [0, 1] : SelectableTable Nat Nat) with
    active_rows := [5], active_columns := [3] }

unseal List.merge List.mergeSort in
theorem c4_counterexample :
    (5 : Int) ∈ (recreate_rows_no_unselect cmpNat stC4).active_rows ∧
    lookupId 5 (recreate_rows_no_unselect cmpNat stC4).indexed_ids = none ∧
    (recreate_rows_no_unselect cmpNat stC4).formatted_rows = [] := by
  refine ⟨by decide, by decide, by decide⟩

/-- C4 (amended): ids in `active_rows` that are no longer present in the
rebuilt display index are *skipped* by the re-attachment loop — the rebuild
completes without a lookup failure — but they are *retained*:
`recreate_rows_no_unselect` leaves `active_rows` and `active_columns`
entirely unchanged, so stale ids with zero selected cells do persist in the
active sets. -/
theorem c4_stale_ids_retained (cmp : F → Row → Row → Ordering)
    (st : SelectableTable Row F) :
    (recreate_rows_no_unselect cmp st).active_rows = st.active_rows ∧
    (recreate_rows_no_unselect cmp st).active_columns = st.active_columns :=
  ⟨rfl, rfl⟩

/-! ### C10: `add_unsorted_row` and display consistency -/

theorem storeInsert_of_not_mem (r : SelectableRow Row F)
    (l : List (SelectableRow Row F)) (h : r.id ∉ l.map (fun x => x.id)) :
    storeInsert r l = l ++ [r] := by
  have hany : ¬ (l.any (fun x => x.id = r.id) = true) := by
    rw [List.any_eq_true]
    rintro ⟨x, hx, hxe⟩
    have hxe2 : x.id = r.id := by simpa using hxe
    exact h (hxe2 ▸ List.mem_map_of_mem (fun x => x.id) hx)
  rw [storeInsert, if_neg hany]

theorem idxInsert_of_not_mem (k : Int) (v : Nat) (l : List (Int × Nat))
    (h : k ∉ l.map Prod.fst) : idxInsert k v l = l ++ [(k, v)] := by
  have hany : ¬ (l.any (fun p => p.1 = k) = true) := by
    rw [List.any_eq_true]
    rintro ⟨p, hp, hpe⟩
    have hpe2 : p.1 = k := by simpa using hpe
    exact h (hpe2 ▸ List.mem_map_of_mem Prod.fst hp)
  rw [idxInsert, if_neg hany]

/-- A consistent state in which the id counter *collides* with a displayed
id (reachable because the `add_modify_row` closure may insert rows with
arbitrary ids into the store without touching the counter). -/
def stC10 : SelectableTable Bool Bool :=
  { (newTable false [false, true] : SelectableTable Bool Bool) with
    rows := [⟨true, 0, []⟩],
    formatted_rows := [⟨true, 0, []⟩],
    indexed_ids := [(0, 0)],
    last_id_used := 0 }

instance (st : SelectableTable Row F) : Decidable (displayConsistent st) := by
  unfold displayConsistent
  infer_instance

theorem c10_counterexample :
    displayConsistent stC10 ∧
    ¬ displayConsistent (add_unsorted_row false stC10).1 := by
  refine ⟨by decide, by decide⟩

/-- C10 (amended): provided the id counter's value is genuinely fresh — it
does not already occur among the displayed ids, the index keys, or the
store ids (always the case when rows only enter through the library's own
id assignment) — `add_unsorted_row` appends the new row at the end of both
the store and the display sequence with no sorting, maps the new id to the
last display position, keeps every pre-existing index entry, and preserves
display/index consistency. -/
theorem c10_add_unsorted_row (st : SelectableTable Row F) (r : Row)
    (hcons : displayConsistent st)
    (hfmt : st.last_id_used ∉ st.formatted_rows.map (fun x => x.id))
    (hidx : st.last_id_used ∉ st.indexed_ids.map Prod.fst)
    (hstore : st.last_id_used ∉ st.rows.map (fun x => x.id)) :
    (add_unsorted_row r st).2.id = st.last_id_used ∧
    (add_unsorted_row r st).1.last_id_used = st.last_id_used + 1 ∧
    (add_unsorted_row r st).1.rows = st.rows ++ [(add_unsorted_row r st).2] ∧
    (add_unsorted_row r st).1.formatted_rows =
      st.formatted_rows ++ [(add_unsorted_row r st).2] ∧
    (add_unsorted_row r st).1.indexed_ids =
      st.indexed_ids ++ [(st.last_id_used, st.formatted_rows.length)] ∧
    displayConsistent (add_unsorted_row r st).1 := by
  have hidxeq : (add_unsorted_row r st).1.indexed_ids =
      st.indexed_ids ++ [(st.last_id_used, st.formatted_rows.length)] := by
    show idxInsert st.last_id_used
      ((st.formatted_rows ++ [(⟨r, st.last_id_used, []⟩ : SelectableRow Row F)]).length - 1)
      st.indexed_ids = _
    rw [List.length_append, List.length_singleton, Nat.add_sub_cancel]
    exact idxInsert_of_not_mem st.last_id_used st.formatted_rows.length
      st.indexed_ids hidx
  have hfmteq : (add_unsorted_row r st).1.formatted_rows =
      st.formatted_rows ++ [(add_unsorted_row r st).2] := rfl
  have hrowseq : (add_unsorted_row r st).1.rows =
      st.rows ++ [(add_unsorted_row r st).2] :=
    storeInsert_of_not_mem _ _ hstore
  refine ⟨rfl, rfl, hrowseq, hfmteq, hidxeq, ?_, ?_, ?_⟩
  · rw [hidxeq, List.map_append, List.nodup_append]
    refine ⟨hcons.1, by simp, ?_⟩
    intro x hx hx2
    have hxe : x = st.last_id_used := by simpa using hx2
    exact hidx (hxe ▸ hx)
  · rw [hidxeq, hfmteq]
    simp [hcons.2.1]
  · intro pr hpr
    rw [hfmteq, buildIndexFrom_append] at hpr
    rw [hidxeq]
    rcases List.mem_append.mp hpr with h | h
    · exact lookupId_append_left (hcons.2.2 pr h)
    · have hpre : pr = (st.last_id_used, st.formatted_rows.length) := by
        simpa [buildIndexFrom, add_unsorted_row] using h
      subst hpre
      rw [lookupId_append_right hidx]
      simp [lookupId]

/-- A consistent state with a genuinely fresh id counter. -/
def stC10w : SelectableTable Bool Bool :=
  { (newTable false [false, true] : SelectableTable Bool Bool) with
    rows := [⟨true, 0, []⟩],
    formatted_rows := [⟨true, 0, []⟩],
    indexed_ids := [(0, 0)],
    last_id_used := 1 }

theorem c10_witness :
    displayConsistent stC10w ∧
    displayConsistent (add_unsorted_row false stC10w).1 :=
  ⟨by decide,
    (c10_add_unsorted_row stC10w false (by decide) (by decide) (by decide)
      (by decide)).2.2.2.2.2⟩

/-! ### C6: bounded search takes the first `n` matches in store order -/

theorem searchLoop_some_eq (p : SelectableRow Row F → Bool) (n : Nat) :
    ∀ (l acc : List (SelectableRow Row F)), acc.length < n →
      searchLoop p (some n) l acc = acc ++ (l.filter p).take (n - acc.length) := by
  intro l
  induction l with
  | nil => intro acc h; simp [searchLoop]
  | cons v rest ih =>
    intro acc h
    by_cases hp : p v
    · simp only [searchLoop, hp, if_true]
      by_cases hm : n ≤ (acc ++ [v]).length
      · have hn : n = acc.length + 1 := by
          simp only [List.length_append, List.length_singleton] at hm
          omega
        simp only [hm, if_true]
        rw [List.filter_cons_of_pos hp, hn, Nat.add_sub_cancel_left,
          List.take_succ_cons, List.take_zero]
      · simp only [hm, if_false]
        have hlt : (acc ++ [v]).length < n := by omega
        rw [ih (acc ++ [v]) hlt, List.filter_cons_of_pos hp]
        have hsub : n - acc.length = (n - (acc ++ [v]).length) + 1 := by
          simp only [List.length_append, List.length_singleton]
          omega
        rw [hsub, List.take_succ_cons]
        simp
    · simp only [searchLoop, hp, Bool.false_eq_true, if_false]
      rw [ih acc h, List.filter_cons_of_neg (by simpa using hp)]

/-- C6: with a non-empty column list, a non-empty query and a positive
limit `n`, `search_and_show` keeps at most `n` rows; they are exactly the
first `n` rows in store-iteration order whose concatenated column text
matches the scorer (the scan stops early, so these need not be the
best-ranked matches), and they are re-sorted by the current sort
column/direction and re-indexed exactly as an ordinary reproject — never
ordered by match score.  The store itself is untouched and the active sets
are cleared. -/
theorem c6_search_limit (cmp : F → Row → Row → Ordering)
    (column_text : F → Row → String) (score : String → Bool)
    (column_list : List F) (query : String) (n : Nat)
    (st : SelectableTable Row F)
    (hq : query ≠ "") (hc : column_list ≠ []) (hn : 0 < n) :
    (search_and_show cmp column_text score column_list query (some n)
        st).formatted_rows.length ≤ n ∧
    (search_and_show cmp column_text score column_list query (some n)
        st).formatted_rows =
      ((st.rows.filter (matchPred column_text score column_list)).take
        n).mergeSort (sortLe cmp st.sorted_by st.sort_order) ∧
    (search_and_show cmp column_text score column_list query (some n)
        st).indexed_ids =
      buildIndexFrom 0
        (search_and_show cmp column_text score column_list query (some n)
          st).formatted_rows ∧
    (search_and_show cmp column_text score column_list query (some n)
        st).active_rows = [] ∧
    (search_and_show cmp column_text score column_list query (some n)
        st).active_columns = [] ∧
    (search_and_show cmp column_text score column_list query (some n)
        st).rows = st.rows := by
  have hne : ¬ (query.isEmpty = true) := by
    simpa [String.isEmpty_iff] using hq
  have hce : ¬ (column_list.isEmpty = true) := by
    simpa [List.isEmpty_iff] using hc
  have hle : ¬ ((some n : Option Nat) = some 0) := by
    simp only [Option.some.injEq]
    omega
  have hloop : searchLoop (matchPred column_text score column_list) (some n)
      st.rows [] =
      (st.rows.filter (matchPred column_text score column_list)).take n := by
    rw [searchLoop_some_eq (matchPred column_text score column_list) n st.rows
      [] (by simpa using hn)]
    simp
  rw [search_and_show, if_neg hne, if_neg hce, if_neg hle]
  refine ⟨?_, ?_, rfl, rfl, rfl, rfl⟩
  · show ((searchLoop (matchPred column_text score column_list) (some n)
      st.rows []).mergeSort (sortLe cmp st.sorted_by st.sort_order)).length ≤ n
    rw [List.length_mergeSort, hloop]
    exact List.length_take_le n _
  · show (searchLoop (matchPred column_text score column_list) (some n)
      st.rows []).mergeSort (sortLe cmp st.sorted_by st.sort_order) = _
    rw [hloop]

/-! ### C7: batcher amortization (auto-reload) -/

/-- The caller closure of a plain bulk insert: touch nothing, return one new
row. -/
def pureInsert (r : Row) :
    List (SelectableRow Row F) → List (SelectableRow Row F) × Option Row :=
  fun rows => (rows, some r)

/-- `N` consecutive `add_modify_row` bulk inserts, the `k`-th inserting row
payload `rg k`. -/
def insertMany (cmp : F → Row → Row → Ordering) (rg : Nat → Row) :
    Nat → SelectableTable Row F → SelectableTable Row F
  | 0, st => st
  | k + 1, st => (add_modify_row cmp (pureInsert (rg k)) (insertMany cmp rg k st)).1

/-- The store contents produced by `N` bulk inserts: rows `rg 0 .. rg (N-1)`
with ids `0 .. N-1` in insertion order. -/
def genRows (rg : Nat → Row) (N : Nat) : List (SelectableRow Row F) :=
  (List.range N).map (fun i => ⟨rg i, (i : Int), []⟩)

/-- How many of the `N` bulk inserts trigger an auto reproject: the `k`-th
call triggers exactly when incrementing the batcher counter of the state
reached after `k` inserts reports a reload. -/
def countTriggers (cmp : F → Row → Row → Ordering) (rg : Nat → Row) (N : Nat)
    (st0 : SelectableTable Row F) : Nat :=
  ((List.range N).filter
    (fun k => (incrementCount (insertMany cmp rg k st0).auto_reload).1)).length

theorem add_modify_pureInsert (cmp : F → Row → Row → Ordering) (r : Row)
    (st : SelectableTable Row F) :
    (add_modify_row cmp (pureInsert r) st).1 =
      (if (incrementCount st.auto_reload).1 then
        recreate_rows cmp
          { st with rows := storeInsert ⟨r, st.last_id_used, []⟩ st.rows,
                    last_id_used := st.last_id_used + 1,
                    auto_reload := (incrementCount st.auto_reload).2 }
      else
        { st with rows := storeInsert ⟨r, st.last_id_used, []⟩ st.rows,
                  last_id_used := st.last_id_used + 1,
                  auto_reload := (incrementCount st.auto_reload).2 }) := by
  by_cases h : (incrementCount st.auto_reload).1 = true
  · simp only [add_modify_row, pureInsert, h, if_true]
  · simp only [add_modify_row, pureInsert, h, Bool.false_eq_true, if_false]

theorem add_modify_pureInsert_trigger (cmp : F → Row → Row → Ordering)
    (r : Row) (st : SelectableTable Row F)
    (h : (incrementCount st.auto_reload).1 = true) :
    (add_modify_row cmp (pureInsert r) st).1 =
      recreate_rows cmp
        { st with rows := storeInsert ⟨r, st.last_id_used, []⟩ st.rows,
                  last_id_used := st.last_id_used + 1,
                  auto_reload := (incrementCount st.auto_reload).2 } := by
  rw [add_modify_pureInsert, if_pos h]

theorem add_modify_pureInsert_no_trigger (cmp : F → Row → Row → Ordering)
    (r : Row) (st : SelectableTable Row F)
    (h : (incrementCount st.auto_reload).1 = false) :
    (add_modify_row cmp (pureInsert r) st).1 =
      { st with rows := storeInsert ⟨r, st.last_id_used, []⟩ st.rows,
                last_id_used := st.last_id_used + 1,
                auto_reload := (incrementCount st.auto_reload).2 } := by
  rw [add_modify_pureInsert, if_neg]
  simp [h]

theorem mod_succ_eq (N T : Nat) (hT : 0 < T) :
    (N + 1) % T = if N % T + 1 = T then 0 else N % T + 1 := by
  have hdm := Nat.div_add_mod N T
  have hlt : N % T < T := Nat.mod_lt N hT
  by_cases h : N % T + 1 = T
  · rw [if_pos h]
    have he : N + 1 = T * (N / T + 1) := by
      rw [Nat.mul_add, Nat.mul_one]
      omega
    rw [he, Nat.mul_mod_right]
  · rw [if_neg h]
    have h2 : N % T + 1 < T := by omega
    have he : N + 1 = (N % T + 1) + T * (N / T) := by omega
    rw [he, Nat.add_mul_mod_self_left, Nat.mod_eq_of_lt h2]

theorem count_multiples (T : Nat) (hT : 0 < T) :
    ∀ N, ((List.range N).filter (fun k => decide (k % T + 1 = T))).length = N / T := by
  intro N
  induction N with
  | zero => simp
  | succ n ih =>
    rw [List.range_succ, List.filter_append, List.length_append, ih, Nat.succ_div]
    by_cases h : n % T + 1 = T
    · have hdvd : T ∣ n + 1 := by
        rw [Nat.dvd_iff_mod_eq_zero, mod_succ_eq n T hT, if_pos h]
      simp [h, hdvd]
    · have hndvd : ¬ (T ∣ n + 1) := by
        rw [Nat.dvd_iff_mod_eq_zero, mod_succ_eq n T hT, if_neg h]
        omega
      simp [h, hndvd]

theorem genRows_succ (rg : Nat → Row) (k : Nat) :
    storeInsert (⟨rg k, (k : Int), []⟩ : SelectableRow Row F) (genRows rg k) =
      genRows rg (k + 1) := by
  have hnot : ((k : Int)) ∉ ((genRows rg k : List (SelectableRow Row F)).map
      (fun x => x.id)) := by
    simp only [genRows, List.map_map, List.mem_map, Function.comp_def,
      List.mem_range, not_exists, not_and]
    intro i hik hie
    have : i = k := by exact_mod_cast hie
    omega
  rw [storeInsert_of_not_mem _ _ hnot]
  simp [genRows, List.range_succ]

theorem insertMany_invariant (cmp : F → Row → Row → Ordering) (rg : Nat → Row)
    (T : Nat) (hT : 0 < T) (st0 : SelectableTable Row F)
    (hrows : st0.rows = []) (hlid : st0.last_id_used = 0)
    (har : st0.auto_reload = ⟨some T, 0⟩) :
    ∀ N, (insertMany cmp rg N st0).rows = genRows rg N ∧
      (insertMany cmp rg N st0).last_id_used = (N : Int) ∧
      (insertMany cmp rg N st0).auto_reload = ⟨some T, N % T⟩ ∧
      (insertMany cmp rg N st0).sorted_by = st0.sorted_by ∧
      (insertMany cmp rg N st0).sort_order = st0.sort_order := by
  intro N
  induction N with
  | zero =>
    refine ⟨?_, ?_, ?_, rfl, rfl⟩
    · show st0.rows = genRows rg 0
      rw [hrows]
      rfl
    · show st0.last_id_used = ((0 : Nat) : Int)
      rw [hlid]
      rfl
    · show st0.auto_reload = ⟨some T, 0 % T⟩
      rw [har, Nat.zero_mod]
  | succ k ih =>
    obtain ⟨hr, hl, ha, hs, ho⟩ := ih
    have hstep : insertMany cmp rg (k + 1) st0 =
        (add_modify_row cmp (pureInsert (rg k)) (insertMany cmp rg k st0)).1 := rfl
    by_cases hk : k % T + 1 = T
    · have hic : incrementCount (insertMany cmp rg k st0).auto_reload =
          (true, ⟨some T, 0⟩) := by
        rw [ha]
        simp [incrementCount, hk]
      have hmod : (k + 1) % T = 0 := by
        rw [mod_succ_eq k T hT, if_pos hk]
      rw [hstep, add_modify_pureInsert_trigger cmp (rg k) _ (by rw [hic])]
      refine ⟨?_, ?_, ?_, hs, ho⟩
      · show storeInsert ⟨rg k, (insertMany cmp rg k st0).last_id_used, []⟩
          (insertMany cmp rg k st0).rows = genRows rg (k + 1)
        rw [hr, hl]
        exact genRows_succ rg k
      · show (insertMany cmp rg k st0).last_id_used + 1 = ((k + 1 : Nat) : Int)
        rw [hl]
        push_cast
        ring
      · show (incrementCount (insertMany cmp rg k st0).auto_reload).2 =
          (⟨some T, (k + 1) % T⟩ : AutoReload)
        rw [hic, hmod]
    · have hic : incrementCount (insertMany cmp rg k st0).auto_reload =
          (false, ⟨some T, k % T + 1⟩) := by
        rw [ha]
        simp [incrementCount, hk]
      have hmod : (k + 1) % T = k % T + 1 := by
        rw [mod_succ_eq k T hT, if_neg hk]
      rw [hstep, add_modify_pureInsert_no_trigger cmp (rg k) _ (by rw [hic])]
      refine ⟨?_, ?_, ?_, hs, ho⟩
      · show storeInsert ⟨rg k, (insertMany cmp rg k st0).last_id_used, []⟩
          (insertMany cmp rg k st0).rows = genRows rg (k + 1)
        rw [hr, hl]
        exact genRows_succ rg k
      · show (insertMany cmp rg k st0).last_id_used + 1 = ((k + 1 : Nat) : Int)
        rw [hl]
        push_cast
        ring
      · show (incrementCount (insertMany cmp rg k st0).auto_reload).2 =
          (⟨some T, (k + 1) % T⟩ : AutoReload)
        rw [hic, hmod]

theorem insertMany_none (cmp : F → Row → Row → Ordering) (rg : Nat → Row)
    (st0 : SelectableTable Row F) (har : st0.auto_reload.threshold = none) :
    ∀ N, (insertMany cmp rg N st0).formatted_rows = st0.formatted_rows ∧
      (insertMany cmp rg N st0).auto_reload.threshold = none := by
  intro N
  induction N with
  | zero => exact ⟨rfl, har⟩
  | succ k ih =>
    rcases hark : (insertMany cmp rg k st0).auto_reload with ⟨th, c⟩
    have hth : th = none := by
      have h2 := ih.2
      rw [hark] at h2
      exact h2
    subst hth
    have hstep : insertMany cmp rg (k + 1) st0 =
        (add_modify_row cmp (pureInsert (rg k)) (insertMany cmp rg k st0)).1 := rfl
    have hic : incrementCount (insertMany cmp rg k st0).auto_reload =
        (false, ⟨none, c + 1⟩) := by
      rw [hark]
      simp [incrementCount]
    rw [hstep, add_modify_pureInsert_no_trigger cmp (rg k) _ (by rw [hic])]
    refine ⟨ih.1, ?_⟩
    show (incrementCount (insertMany cmp rg k st0).auto_reload).2.threshold = none
    rw [hic]

theorem countTriggers_none (cmp : F → Row → Row → Ordering) (rg : Nat → Row)
    (st0 : SelectableTable Row F) (har : st0.auto_reload.threshold = none)
    (N : Nat) : countTriggers cmp rg N st0 = 0 := by
  unfold countTriggers
  have hcong : ∀ k ∈ List.range N,
      ((incrementCount (insertMany cmp rg k st0).auto_reload).1) =
        ((fun (_ : Nat) => false) k) := by
    intro k _
    rcases hark : (insertMany cmp rg k st0).auto_reload with ⟨th, c⟩
    have hth : th = none := by
      have h2 := (insertMany_none cmp rg st0 har k).2
      rw [hark] at h2
      exact h2
    subst hth
    simp [incrementCount]
  rw [List.filter_congr hcong]
  simp

/-- C7: starting from a fresh table with auto-reload threshold `T > 0`,
every `add_modify_row` call increments the batcher counter and a full
reproject fires exactly each time the counter reaches `T` (so `N` inserts
with `T ∣ N` fire exactly `N / T` reprojects — 4 for 10,000 inserts at
threshold 2,500), and the display sequence after the `N`-th insert equals a
single reproject over the full `N`-row store under the active sort column;
with the default (no threshold) no auto reproject ever fires and the
display sequence never changes. -/
theorem c7_batcher (cmp : F → Row → Row → Ordering) (rg : Nat → Row)
    (f0 : F) (cols : List F) (T N : Nat)
    (hT : 0 < T) (hdvd : T ∣ N) (hN : 0 < N) :
    countTriggers cmp rg N (setAutoReload T (newTable f0 cols)) = N / T ∧
    (insertMany cmp rg N (setAutoReload T (newTable f0 cols))).formatted_rows =
      (sort_rows cmp { (newTable f0 cols : SelectableTable Row F) with
        rows := genRows rg N }).formatted_rows ∧
    countTriggers cmp rg N (newTable f0 cols) = 0 ∧
    (insertMany cmp rg N (newTable f0 cols)).formatted_rows = [] := by
  have hinv := insertMany_invariant cmp rg T hT
    (setAutoReload T (newTable f0 cols)) rfl rfl rfl
  refine ⟨?_, ?_, countTriggers_none cmp rg (newTable f0 cols) rfl N,
    (insertMany_none cmp rg (newTable f0 cols) rfl N).1⟩
  · unfold countTriggers
    have hcong : ∀ k ∈ List.range N,
        ((incrementCount (insertMany cmp rg k
          (setAutoReload T (newTable f0 cols))).auto_reload).1) =
          ((fun k => decide (k % T + 1 = T)) k) := by
      intro k _
      rw [(hinv k).2.2.1]
      simp only [incrementCount]
      by_cases h : k % T + 1 = T
      · simp [h]
      · simp [h]
    rw [List.filter_congr hcong]
    exact count_multiples T hT N
  · cases N with
    | zero => omega
    | succ k =>
      obtain ⟨hr, hl, ha, hs, ho⟩ := hinv k
      have hk : k % T + 1 = T := by
        have hmod : (k + 1) % T = 0 := Nat.dvd_iff_mod_eq_zero.mp hdvd
        rw [mod_succ_eq k T hT] at hmod
        by_cases h : k % T + 1 = T
        · exact h
        · rw [if_neg h] at hmod
          omega
      have hic : incrementCount (insertMany cmp rg k
          (setAutoReload T (newTable f0 cols))).auto_reload =
          (true, ⟨some T, 0⟩) := by
        rw [ha]
        simp [incrementCount, hk]
      have hstep : insertMany cmp rg (k + 1) (setAutoReload T (newTable f0 cols)) =
          (add_modify_row cmp (pureInsert (rg k)) (insertMany cmp rg k
            (setAutoReload T (newTable f0 cols)))).1 := rfl
      rw [hstep, add_modify_pureInsert_trigger cmp (rg k) _ (by rw [hic])]
      show List.mergeSort
          (storeInsert ⟨rg k, (insertMany cmp rg k
            (setAutoReload T (newTable f0 cols))).last_id_used, []⟩
            (insertMany cmp rg k (setAutoReload T (newTable f0 cols))).rows)
          (sortLe cmp
            (insertMany cmp rg k (setAutoReload T (newTable f0 cols))).sorted_by
            (insertMany cmp rg k (setAutoReload T (newTable f0 cols))).sort_order)
        = _
      rw [hr, hl, hs, ho, genRows_succ]
      rfl

/-! ### Witnesses for the theorems with hypotheses -/

theorem c1_witness :
    ((stC3.rows.map (fun r => r.id)).Nodup ∧ ("a" : String) ≠ "" ∧
      ([0] : List Nat) ≠ [] ∧ (none : Option Nat) ≠ some 0) ∧
    displayConsistent (recreate_rows cmpNat stC3) :=
  ⟨⟨by decide, by decide, by decide, by decide⟩,
    (c1_display_index_consistent cmpNat (fun _ _ => "x") (fun _ => true) [0] "a"
      none stC3 (by decide) (by decide) (by decide) (by decide)).1⟩

theorem c5_witness :
    (([0] : List Nat) = [] ∨ ("" : String) = "" ∨ (none : Option Nat) = some 0) ∧
    search_and_show cmpNat (fun _ _ => "x") (fun _ => true) [0] "" none stC3 =
      stC3 :=
  ⟨Or.inr (Or.inl rfl),
    c5_search_degenerate_noop cmpNat (fun _ _ => "x") (fun _ => true) [0] "" none
      stC3 (Or.inr (Or.inl rfl))⟩

theorem c6_witness :
    (("a" : String) ≠ "" ∧ ([0] : List Nat) ≠ [] ∧ (0 : Nat) < 1) ∧
    (search_and_show cmpNat (fun _ _ => "x") (fun _ => true) [0] "a" (some 1)
      stC3).formatted_rows.length ≤ 1 :=
  ⟨⟨by decide, by decide, by decide⟩,
    (c6_search_limit cmpNat (fun _ _ => "x") (fun _ => true) [0] "a" 1 stC3
      (by decide) (by decide) (by decide)).1⟩

/-- The row generator of the bulk-insert witness. -/
def rgB : Nat → Bool := fun _ => true

theorem c7_witness :
    ((0 : Nat) < 2500 ∧ (2500 : Nat) ∣ 10000 ∧ (0 : Nat) < 10000) ∧
    countTriggers goodCmp rgB 10000
      (setAutoReload 2500 (newTable false [false, true])) = 4 := by
  have h := c7_batcher goodCmp rgB false [false, true] 2500 10000 (by decide)
    ⟨4, by decide⟩ (by decide)
  refine ⟨⟨by decide, ⟨4, by decide⟩, by decide⟩, ?_⟩
  rw [h.1]

end EguiTable
